import Mathlib

/-!
# cognicraft/fsm: a shallow embedding of `fsm.go`

The Go package keeps one `StateMachine` object behind a mutex.  Every public
method takes the lock for its whole body, so each call is one atomic step on
the machine; the embedding is therefore sequential state passing:
every method is a function from the machine before the call to the returned
value and the machine after the call.

Modelling decisions (each is visible in the definitions below):

* `State` and `Event` are Go strings; they are Lean strings here, compared with
  the lexicographic order of their characters, as Go's `<` on strings does.
* A Go `map[K]V` is a finite map with unique keys: `GoMap K V`, an association
  list whose keys are pairwise different (`AList`).  Go leaves the iteration
  order of a map unspecified; the model iterates in list order, and every
  method that iterates sorts its result afterwards.
* The registry maps a state to a pointer to its descriptor, and every
  descriptor is allocated by `newStateDescriptor` for exactly one key.  A write
  through such a pointer is modelled as storing the changed descriptor under
  that key.
* An `Action` is a Go `func()`.  Its body belongs to the caller; the model
  keeps the identity of the function and records every call in the ghost field
  `trace` of the machine, together with every write to the register
  `sm.state`, in program order.
* `SetState` calls `cs.onExit()` on the result of a map lookup without testing
  it.  When the lookup misses, `cs` is a nil pointer and Go panics; the model
  has the outcome `Result.panic` for that.
-/

namespace Fsm

/-- Go: `type State string`.  The empty string is the "no current state" value. -/
abbrev State := String

/-- Go: `type Event string`. -/
abbrev Event := String

/-- A Go `map[K]V`: a finite map with pairwise different keys. -/
abbrev GoMap (κ ν : Type) := AList (fun _ : κ => ν)

/-- Go: `type Action func()`.  `NOOP` is the package function of that name,
`func id` stands for a function supplied by the caller.  A nil action is
`none : Option Action` where the source accepts one. -/
inductive Action where
  | NOOP
  | func (id : Nat)
  deriving DecidableEq, Repr

/-- A dynamically typed Go value, as stored in a `map[string]any`.  The four
types the accessors of `Data` test for are kept apart; a slice is `none` when it
is the nil slice.  `other tag` is a value of any other dynamic type. -/
inductive Value where
  | string (v : String)
  | strings (v : Option (List String))
  | int (v : Int)
  | ints (v : Option (List Int))
  | bool (v : Bool)
  | other (tag : Nat)
  deriving DecidableEq, Repr

/-- Go: `type Data map[string]any`. -/
abbrev Data := GoMap String Value

/-- Go: `type stateDescriptor struct`. -/
structure stateDescriptor where
  name : State
  transitions : GoMap Event State
  data : Data
  onEntry : Action
  onExit : Action
  deriving DecidableEq

/-- Go: `newStateDescriptor`. -/
def newStateDescriptor (name : State) : stateDescriptor :=
  { name := name, transitions := ∅, data := ∅, onEntry := Action.NOOP, onExit := Action.NOOP }

/-- One observable step inside a method body: a call of an exit hook
(`cs.onExit()`, `s.onExit()`), a write `sm.state = s`, or a call of an entry
hook (`ns.onEntry()`, `t.onEntry()`). -/
inductive Effect where
  | exit (a : Action)
  | assign (s : State)
  | entry (a : Action)
  deriving DecidableEq, Repr

/-- Go: `type StateMachine struct`.  `mu` is not modelled (every method holds it
for its whole body).  `trace` is ghost state: the effects performed so far,
oldest first. -/
structure StateMachine where
  state : State
  states : GoMap State stateDescriptor
  trace : List Effect
  deriving DecidableEq

/-- Go: `New`. -/
def New : StateMachine :=
  { state := "", states := ∅, trace := [] }

/-- The error values built with `fmt.Errorf` in the package, one constructor
for each format string:
`"%q does not exist"`, `"no current state is set"`,
`"%q does not have transitions"`, `"%q does not accept event %q"`. -/
inductive Error where
  | doesNotExist (s : State)
  | noCurrentState
  | noTransitions (name : State)
  | doesNotAccept (name : State) (event : Event)
  deriving DecidableEq, Repr

/-- How a call of `SetState`, `Process` or `AddTransition` ends: it returns
nil, it returns an error, or it panics on a nil pointer. -/
inductive Result where
  | ok
  | error (e : Error)
  | panic
  deriving DecidableEq, Repr

/-- Appends one effect to the ghost trace. -/
def StateMachine.emit (sm : StateMachine) (e : Effect) : StateMachine :=
  { sm with trace := sm.trace ++ [e] }

/-- Go: `sm.state = state`, recorded in the trace. -/
def StateMachine.assign (sm : StateMachine) (state : Fsm.State) : StateMachine :=
  { sm with state := state, trace := sm.trace ++ [Effect.assign state] }

/-- Go: `(*StateMachine).getOrCreateState`.  Returns the descriptor registered
for `state` and the machine, in which the descriptor has been registered if it
was not. -/
def getOrCreateState (sm : StateMachine) (state : State) : stateDescriptor × StateMachine :=
  match sm.states.lookup state with
  | some s => (s, sm)
  | none =>
    let s := newStateDescriptor state
    (s, { sm with states := sm.states.insert state s })

/-- Go: `(*StateMachine).SetState`. -/
def SetState (sm : StateMachine) (state : State) : Result × StateMachine :=
  if sm.state = state then
    (Result.ok, sm)
  else
    match sm.states.lookup state with
    | none => (Result.error (Error.doesNotExist state), sm)
    | some ns =>
      if sm.state ≠ "" then
        match sm.states.lookup sm.state with
        | none => (Result.panic, sm)
        | some cs =>
          let sm1 := sm.emit (Effect.exit cs.onExit)
          let sm2 := sm1.assign state
          (Result.ok, sm2.emit (Effect.entry ns.onEntry))
      else
        let sm2 := sm.assign state
        (Result.ok, sm2.emit (Effect.entry ns.onEntry))

/-- Go: `(*StateMachine).State`. -/
def StateMachine.State (sm : StateMachine) : State :=
  sm.state

/-- Go's `<` on strings: lexicographic comparison of the characters. -/
def strLess (a b : String) : Bool :=
  decide (a.toList < b.toList)

/-- Puts `x` into a list that is ordered by `less`, behind the elements that
are less than it. -/
def insertSorted {α : Type} (less : α → α → Bool) (x : α) : List α → List α
  | [] => [x]
  | y :: ys => if less y x then y :: insertSorted less x ys else x :: y :: ys

/-- Go: `sort.Slice(res, less)` of the standard library, as an insertion sort. -/
def sortSlice {α : Type} (less : α → α → Bool) : List α → List α
  | [] => []
  | x :: xs => insertSorted less x (sortSlice less xs)

/-- The loop `for _, target := range s.transitions { states[target] = true }`. -/
def markTargets (states : GoMap State Bool) (s : stateDescriptor) : GoMap State Bool :=
  s.transitions.entries.foldl (fun acc et => acc.insert et.2 true) states

/-- Go: `(*StateMachine).States`. -/
def States (sm : StateMachine) : List State :=
  let states : GoMap State Bool :=
    sm.states.entries.foldl (fun acc ss => markTargets (acc.insert ss.1 true) ss.2) ∅
  let res := states.keys
  sortSlice strLess res

/-- Go: `(*StateMachine).OutStates`. -/
def OutStates (sm : StateMachine) (source : State) : List State :=
  match sm.states.lookup source with
  | none => []
  | some s =>
    let states : GoMap State Bool := markTargets ∅ s
    let res := states.keys
    sortSlice strLess res

/-- Go: `(*StateMachine).AddTransition`. -/
def AddTransition (sm : StateMachine) (source : State) (input : Event) (target : State) :
    Result × StateMachine :=
  let sm1 := (getOrCreateState sm target).2
  let (s, sm2) := getOrCreateState sm1 source
  let s1 := { s with transitions := s.transitions.insert input target }
  (Result.ok, { sm2 with states := sm2.states.insert source s1 })

/-- Go: `(*StateMachine).SetOnEntry`; `action = none` is the nil action. -/
def SetOnEntry (sm : StateMachine) (state : State) (action : Option Action) : StateMachine :=
  let (s, sm1) := getOrCreateState sm state
  match action with
  | some a => { sm1 with states := sm1.states.insert state { s with onEntry := a } }
  | none => sm1

/-- Go: `(*StateMachine).SetOnExit`; `action = none` is the nil action. -/
def SetOnExit (sm : StateMachine) (state : State) (action : Option Action) : StateMachine :=
  let (s, sm1) := getOrCreateState sm state
  match action with
  | some a => { sm1 with states := sm1.states.insert state { s with onExit := a } }
  | none => sm1

/-- Go: `(*StateMachine).ValidEvents`. -/
def ValidEvents (sm : StateMachine) (state : State) : List Event :=
  match sm.states.lookup state with
  | none => []
  | some s =>
    let res := s.transitions.keys
    sortSlice strLess res

/-- Go: `(*StateMachine).IsValidEvent`. -/
def IsValidEvent (sm : StateMachine) (state : State) (event : Event) : Bool :=
  match sm.states.lookup state with
  | none => false
  | some s => (s.transitions.lookup event).isSome

/-- Go: `(*StateMachine).Data`.  Returns the bag of `state` and the machine, in
which the descriptor exists. -/
def StateMachine.Data (sm : StateMachine) (state : Fsm.State) : Fsm.Data × StateMachine :=
  let (s, sm1) := getOrCreateState sm state
  (s.data, sm1)

/-- The caller's statement `sm.Data(state)[key] = v` (as in `TestData`): the call
`sm.Data(state)` hands out a bag by reference, and the store goes into that
bag.  The machine sees the store through the descriptor that is registered for
`state` after the call; a bag that belonged to no registered descriptor would
take the store without any effect on the machine. -/
def DataStore (sm : StateMachine) (state : State) (key : String) (v : Value) : StateMachine :=
  let (bag, sm1) := sm.Data state
  match sm1.states.lookup state with
  | none => sm1
  | some s => { sm1 with states := sm1.states.insert state { s with data := bag.insert key v } }

/-- Go: `(*StateMachine).Process`. -/
def Process (sm : StateMachine) (event : Event) : Result × StateMachine :=
  if sm.state = "" then
    (Result.error Error.noCurrentState, sm)
  else
    match sm.states.lookup sm.state with
    | none => (Result.error (Error.doesNotExist sm.state), sm)
    | some s =>
      if s.transitions.entries.length = 0 then
        (Result.error (Error.noTransitions s.name), sm)
      else
        match s.transitions.lookup event with
        | none => (Result.error (Error.doesNotAccept s.name event), sm)
        | some target =>
          match sm.states.lookup target with
          | none => (Result.error (Error.doesNotExist target), sm)
          | some t =>
            let sm1 := sm.emit (Effect.exit s.onExit)
            let sm2 := sm1.assign target
            (Result.ok, sm2.emit (Effect.entry t.onEntry))

/-- One call of the public interface by the owner of the machine. -/
inductive Op where
  | AddTransition (source : Fsm.State) (input : Event) (target : Fsm.State)
  | SetOnEntry (state : Fsm.State) (action : Option Action)
  | SetOnExit (state : Fsm.State) (action : Option Action)
  | Data (state : Fsm.State)
  | DataStore (state : Fsm.State) (key : String) (v : Value)
  | SetState (state : Fsm.State)
  | Process (event : Event)
  | State
  | States
  | OutStates (source : Fsm.State)
  | ValidEvents (state : Fsm.State)
  | IsValidEvent (state : Fsm.State) (event : Event)
  deriving DecidableEq

/-- The machine after one call; the returned value is dropped. -/
def step (sm : StateMachine) : Op → StateMachine
  | Op.AddTransition source input target => (AddTransition sm source input target).2
  | Op.SetOnEntry state action => SetOnEntry sm state action
  | Op.SetOnExit state action => SetOnExit sm state action
  | Op.Data state => (sm.Data state).2
  | Op.DataStore state key v => DataStore sm state key v
  | Op.SetState state => (SetState sm state).2
  | Op.Process event => (Process sm event).2
  | Op.State => sm
  | Op.States => sm
  | Op.OutStates _ => sm
  | Op.ValidEvents _ => sm
  | Op.IsValidEvent _ _ => sm

/-- The machine after a sequence of calls, first call first. -/
def run (sm : StateMachine) (ops : List Op) : StateMachine :=
  ops.foldl step sm

/-- A machine that some sequence of calls builds from `New()`. -/
def Reachable (sm : StateMachine) : Prop :=
  ∃ ops : List Op, run New ops = sm

/-- The call passes `s` to `AddTransition` (as source or as target), to
`SetOnEntry`, to `SetOnExit` or to `Data`. -/
def Op.introduces (s : Fsm.State) : Op → Bool
  | Op.AddTransition source _ target => decide (source = s) || decide (target = s)
  | Op.SetOnEntry state _ => decide (state = s)
  | Op.SetOnExit state _ => decide (state = s)
  | Op.Data state => decide (state = s)
  | Op.DataStore state _ _ => decide (state = s)
  | _ => false

/-- The pair `(source, event)` maps to `target` in the transition table. -/
def HasTransition (sm : StateMachine) (source : State) (event : Event) (target : State) : Prop :=
  ∃ s, sm.states.lookup source = some s ∧ s.transitions.lookup event = some target

/-- The registry invariant of section 3 of the specification: the current
state, when set, has a descriptor, and so has the target of every transition. -/
def Consistent (sm : StateMachine) : Prop :=
  (sm.state ≠ "" → sm.state ∈ sm.states) ∧
  ∀ source event target, HasTransition sm source event target → target ∈ sm.states

/-- The descriptor that `getOrCreateState` hands out for `k`: the registered
one, or a fresh one when `k` has none. -/
def descriptorOf (sm : StateMachine) (k : State) : stateDescriptor :=
  (sm.states.lookup k).getD (newStateDescriptor k)

/-- The double quote character as a string. -/
def dquote : String :=
  String.mk [Char.ofNat 34]

/-- The verb `%q` of `fmt`: the argument between double quotes, its characters
escaped by `esc`.  The escaping is done by the standard library
(`strconv.Quote`) and is a parameter here. -/
def quoted (esc : String → String) (s : String) : String :=
  dquote ++ esc s ++ dquote

/-- The text of an error, as `fmt.Errorf` builds it from the format string of
the constructor. -/
def Error.message (esc : String → String) : Error → String
  | Error.doesNotExist s => quoted esc s ++ " does not exist"
  | Error.noCurrentState => "no current state is set"
  | Error.noTransitions name => quoted esc name ++ " does not have transitions"
  | Error.doesNotAccept name event =>
    quoted esc name ++ " does not accept event " ++ quoted esc event

/-- Go: `Data.Strings`.  The result is `none` for the nil slice. -/
def Data.Strings (d : Fsm.Data) (key : String) : Option (List String) :=
  match d.lookup key with
  | none => none
  | some v =>
    match v with
    | Value.strings res => res
    | _ => none

/-- Go: `Data.Ints`.  The result is `none` for the nil slice. -/
def Data.Ints (d : Fsm.Data) (key : String) : Option (List Int) :=
  match d.lookup key with
  | none => none
  | some v =>
    match v with
    | Value.ints res => res
    | _ => none

/-- Go: `Data.Bool`. -/
def Data.Bool (d : Fsm.Data) (key : String) : Bool :=
  match d.lookup key with
  | none => false
  | some v =>
    match v with
    | Value.bool res => res
    | _ => false

/-- Go: `Data.Int`. -/
def Data.Int (d : Fsm.Data) (key : String) : Int :=
  match d.lookup key with
  | none => 0
  | some v =>
    match v with
    | Value.int res => res
    | _ => 0

/-- Go: `Data.String`. -/
def Data.String (d : Fsm.Data) (key : String) : String :=
  match d.lookup key with
  | none => ""
  | some v =>
    match v with
    | Value.string res => res
    | _ => ""

/-- The call is the store `sm.Data(s)[k] = v` for some value `v`. -/
def Op.stores (s : Fsm.State) (k : String) : Op → Bool
  | Op.DataStore state key _ => decide (state = s) && decide (key = k)
  | _ => false

/-- The call is `AddTransition` with `s` as its source or as its target. -/
def Op.addsEdgeAt (s : Fsm.State) : Op → Bool
  | Op.AddTransition source _ target => decide (source = s) || decide (target = s)
  | _ => false

/-- A machine with the self-loop `"on" --TICK--> "on"`, both hooks of `"on"`
set, and `"on"` as its current state. -/
def loopMachine : StateMachine :=
  run New
    [Op.AddTransition "on" "TICK" "on", Op.SetOnEntry "on" (some (Action.func 5)),
     Op.SetOnExit "on" (some (Action.func 6)), Op.SetState "on"]

/-- The machine of `TestData` after `sm.Data("a")["foo"] = "bar"`. -/
def dataMachine : StateMachine :=
  run New [Op.DataStore "a" "foo" (Value.string "bar")]

/-- The calls of `TestFSM` that build its machine: two transitions and four
hooks. -/
def testOps : List Op :=
  [Op.AddTransition "idle" "PLAY" "playing", Op.AddTransition "playing" "STOP" "idle",
   Op.SetOnEntry "idle" (some (Action.func 1)), Op.SetOnExit "idle" (some (Action.func 2)),
   Op.SetOnEntry "playing" (some (Action.func 3)), Op.SetOnExit "playing" (some (Action.func 4))]

/-- The machine of `TestFSM` before its first `SetState`. -/
def testMachine : StateMachine :=
  run New testOps

/-- The machine of `TestFSM` after `SetState("idle")`. -/
def idleMachine : StateMachine :=
  run New (testOps ++ [Op.SetState "idle"])


theorem strLess_iff (a b : String) : strLess a b = true ↔ a < b := by
  unfold strLess
  rw [decide_eq_true_iff]
  exact String.lt_iff_toList_lt.symm

theorem insertSorted_perm {α : Type} (less : α → α → Bool) (x : α) (l : List α) :
    (insertSorted less x l).Perm (x :: l) := by
  induction l with
  | nil => exact List.Perm.refl _
  | cons y ys ih =>
    unfold insertSorted
    split
    · exact (List.Perm.cons y ih).trans (List.Perm.swap x y ys)
    · exact List.Perm.refl _

theorem sortSlice_perm {α : Type} (less : α → α → Bool) (l : List α) :
    (sortSlice less l).Perm l := by
  induction l with
  | nil => exact List.Perm.refl _
  | cons x xs ih =>
    unfold sortSlice
    exact (insertSorted_perm less x _).trans (List.Perm.cons x ih)

theorem mem_sortSlice {α : Type} (less : α → α → Bool) (l : List α) (a : α) :
    a ∈ sortSlice less l ↔ a ∈ l :=
  (sortSlice_perm less l).mem_iff

theorem insertSorted_sorted (x : String) (l : List String)
    (h : List.Sorted (fun a b => a ≤ b) l) :
    List.Sorted (fun a b => a ≤ b) (insertSorted strLess x l) := by
  induction l with
  | nil => simp [insertSorted]
  | cons y ys ih =>
    have hy := List.rel_of_sorted_cons h
    have hys := List.Sorted.of_cons h
    unfold insertSorted
    split
    · rename_i hlt
      have hyx : y < x := (strLess_iff y x).mp hlt
      refine List.sorted_cons.mpr ⟨?_, ih hys⟩
      intro b hb
      rcases List.mem_cons.mp ((insertSorted_perm strLess x ys).mem_iff.mp hb) with hbx | hbys
      · exact hbx ▸ le_of_lt hyx
      · exact hy b hbys
    · rename_i hnlt
      have hxy : x ≤ y := by
        rcases le_or_lt x y with hle | hlt
        · exact hle
        · exact absurd ((strLess_iff y x).mpr hlt) hnlt
      refine List.sorted_cons.mpr ⟨?_, h⟩
      intro b hb
      rcases List.mem_cons.mp hb with hby | hbys
      · exact hby ▸ hxy
      · exact le_trans hxy (hy b hbys)

theorem sortSlice_sorted (l : List String) :
    List.Sorted (fun a b => a ≤ b) (sortSlice strLess l) := by
  induction l with
  | nil => simp [sortSlice]
  | cons x xs ih =>
    unfold sortSlice
    exact insertSorted_sorted x _ ih

theorem sortSlice_strictSorted (l : List String) (h : l.Nodup) :
    List.Sorted (fun a b => a < b) (sortSlice strLess l) :=
  List.Sorted.lt_of_le (sortSlice_sorted l) ((sortSlice_perm strLess l).nodup_iff.mpr h)

theorem mem_foldl_insert_snd (l : List (Sigma (fun _ : Event => State))) (acc : GoMap State Bool)
    (t : State) :
    t ∈ l.foldl (fun (acc : GoMap State Bool) et => acc.insert et.2 true) acc ↔
      t ∈ acc ∨ ∃ et ∈ l, et.2 = t := by
  induction l generalizing acc with
  | nil => simp
  | cons x xs ih =>
    rw [List.foldl_cons, ih, AList.mem_insert]
    constructor
    · rintro ((h | h) | ⟨et, het, h⟩)
      · exact Or.inr ⟨x, List.mem_cons_self _ _, h.symm⟩
      · exact Or.inl h
      · exact Or.inr ⟨et, List.mem_cons_of_mem _ het, h⟩
    · rintro (h | ⟨et, het, h⟩)
      · exact Or.inl (Or.inr h)
      · rcases List.mem_cons.mp het with hx | hxs
        · exact Or.inl (Or.inl (hx ▸ h.symm))
        · exact Or.inr ⟨et, hxs, h⟩

theorem mem_markTargets (acc : GoMap State Bool) (s : stateDescriptor) (t : State) :
    t ∈ markTargets acc s ↔ t ∈ acc ∨ ∃ e, s.transitions.lookup e = some t := by
  unfold markTargets
  rw [mem_foldl_insert_snd]
  constructor
  · rintro (h | ⟨et, het, h⟩)
    · exact Or.inl h
    · refine Or.inr ⟨et.1, ?_⟩
      subst h
      exact AList.mem_lookup_iff.mpr het
  · rintro (h | ⟨e, he⟩)
    · exact Or.inl h
    · exact Or.inr ⟨⟨e, t⟩, AList.mem_lookup_iff.mp he, rfl⟩

theorem mem_foldl_states (l : List (Sigma (fun _ : State => stateDescriptor)))
    (acc : GoMap State Bool) (t : State) :
    t ∈ l.foldl (fun (acc : GoMap State Bool) ss => markTargets (acc.insert ss.1 true) ss.2) acc ↔
      t ∈ acc ∨ ∃ ss ∈ l, ss.1 = t ∨ ∃ e, ss.2.transitions.lookup e = some t := by
  induction l generalizing acc with
  | nil => simp
  | cons x xs ih =>
    rw [List.foldl_cons, ih, mem_markTargets, AList.mem_insert]
    constructor
    · rintro (((h | h) | h) | ⟨ss, hss, h⟩)
      · exact Or.inr ⟨x, List.mem_cons_self _ _, Or.inl h.symm⟩
      · exact Or.inl h
      · exact Or.inr ⟨x, List.mem_cons_self _ _, Or.inr h⟩
      · exact Or.inr ⟨ss, List.mem_cons_of_mem _ hss, h⟩
    · rintro (h | ⟨ss, hss, h⟩)
      · exact Or.inl (Or.inl (Or.inr h))
      · rcases List.mem_cons.mp hss with hx | hxs
        · subst hx
          rcases h with h | h
          · exact Or.inl (Or.inl (Or.inl h.symm))
          · exact Or.inl (Or.inr h)
        · exact Or.inr ⟨ss, hxs, h⟩

theorem mem_States (sm : StateMachine) (t : State) :
    t ∈ States sm ↔ t ∈ sm.states ∨ ∃ source event, HasTransition sm source event t := by
  unfold States
  simp only []
  rw [mem_sortSlice, ← AList.mem_keys, mem_foldl_states]
  constructor
  · rintro (h | ⟨ss, hss, h | ⟨e, he⟩⟩)
    · exact absurd h (AList.not_mem_empty t)
    · subst h
      exact Or.inl (AList.mem_keys.mpr (List.mem_keys.mpr ⟨ss.2, hss⟩))
    · exact Or.inr ⟨ss.1, e, ss.2, AList.mem_lookup_iff.mpr hss, he⟩
  · rintro (h | ⟨source, event, d, hd, he⟩)
    · obtain ⟨d, hd⟩ := List.mem_keys.mp (AList.mem_keys.mp h)
      exact Or.inr ⟨⟨t, d⟩, hd, Or.inl rfl⟩
    · exact Or.inr ⟨⟨source, d⟩, AList.mem_lookup_iff.mp hd, Or.inr ⟨event, he⟩⟩

theorem mem_of_lookup {ν : Type} (m : GoMap State ν) (k : State) (v : ν)
    (h : m.lookup k = some v) : k ∈ m := by
  rw [← AList.lookup_isSome, h]
  rfl


theorem getOrCreateState_fst (sm : StateMachine) (s : State) :
    (getOrCreateState sm s).1 = descriptorOf sm s := by
  unfold getOrCreateState descriptorOf
  split <;> simp_all

theorem getOrCreateState_state (sm : StateMachine) (s : State) :
    (getOrCreateState sm s).2.state = sm.state := by
  unfold getOrCreateState
  split <;> rfl

theorem getOrCreateState_trace (sm : StateMachine) (s : State) :
    (getOrCreateState sm s).2.trace = sm.trace := by
  unfold getOrCreateState
  split <;> rfl

theorem getOrCreateState_lookup_self (sm : StateMachine) (s : State) :
    (getOrCreateState sm s).2.states.lookup s = some (descriptorOf sm s) := by
  unfold getOrCreateState descriptorOf
  split
  · simp_all
  · simp_all [AList.lookup_insert]

theorem getOrCreateState_lookup_ne (sm : StateMachine) (s k : State) (h : k ≠ s) :
    (getOrCreateState sm s).2.states.lookup k = sm.states.lookup k := by
  unfold getOrCreateState
  split
  · rfl
  · simp [AList.lookup_insert_ne h]

theorem mem_getOrCreateState (sm : StateMachine) (s k : State) :
    k ∈ (getOrCreateState sm s).2.states ↔ k = s ∨ k ∈ sm.states := by
  unfold getOrCreateState
  split
  · rename_i d hd
    constructor
    · exact Or.inr
    · rintro (h | h)
      · exact h ▸ mem_of_lookup _ _ _ hd
      · exact h
  · simp [AList.mem_insert]

theorem descriptorOf_getOrCreateState (sm : StateMachine) (s k : State) :
    descriptorOf (getOrCreateState sm s).2 k = descriptorOf sm k := by
  by_cases h : k = s
  · subst h
    unfold descriptorOf
    rw [getOrCreateState_lookup_self]
    rfl
  · unfold descriptorOf
    rw [getOrCreateState_lookup_ne sm s k h]

theorem getOrCreateState_idem (sm : StateMachine) (s : State) (h : s ∈ sm.states) :
    getOrCreateState sm s = (descriptorOf sm s, sm) := by
  unfold getOrCreateState descriptorOf
  split
  · simp_all
  · rename_i hn
    exact absurd h (AList.lookup_eq_none.mp hn)

theorem hasTransition_iff (sm : StateMachine) (s : State) (e : Event) (t : State) :
    HasTransition sm s e t ↔ (descriptorOf sm s).transitions.lookup e = some t := by
  unfold HasTransition descriptorOf
  cases h : sm.states.lookup s with
  | none => simp [newStateDescriptor]
  | some d => simp

theorem AddTransition_snd (sm : StateMachine) (source : State) (input : Event) (target : State) :
    (AddTransition sm source input target).2 =
      { state := sm.state,
        states := (getOrCreateState (getOrCreateState sm target).2 source).2.states.insert source
          { descriptorOf sm source with
            transitions := (descriptorOf sm source).transitions.insert input target },
        trace := sm.trace } := by
  have h1 := getOrCreateState_fst (getOrCreateState sm target).2 source
  rw [descriptorOf_getOrCreateState] at h1
  unfold AddTransition
  simp only []
  rw [← h1]
  simp [getOrCreateState_state, getOrCreateState_trace]

theorem SetOnEntry_some (sm : StateMachine) (s : State) (a : Action) :
    SetOnEntry sm s (some a) =
      { state := sm.state,
        states := (getOrCreateState sm s).2.states.insert s { descriptorOf sm s with onEntry := a },
        trace := sm.trace } := by
  unfold SetOnEntry
  simp [getOrCreateState_state, getOrCreateState_trace, getOrCreateState_fst]

theorem SetOnEntry_none (sm : StateMachine) (s : State) :
    SetOnEntry sm s none = (getOrCreateState sm s).2 := rfl

theorem SetOnExit_some (sm : StateMachine) (s : State) (a : Action) :
    SetOnExit sm s (some a) =
      { state := sm.state,
        states := (getOrCreateState sm s).2.states.insert s { descriptorOf sm s with onExit := a },
        trace := sm.trace } := by
  unfold SetOnExit
  simp [getOrCreateState_state, getOrCreateState_trace, getOrCreateState_fst]

theorem SetOnExit_none (sm : StateMachine) (s : State) :
    SetOnExit sm s none = (getOrCreateState sm s).2 := rfl

theorem Data_snd (sm : StateMachine) (s : State) :
    (sm.Data s).2 = (getOrCreateState sm s).2 := rfl

theorem DataStore_eq (sm : StateMachine) (s : State) (key : String) (v : Value) :
    DataStore sm s key v =
      { state := sm.state,
        states := (getOrCreateState sm s).2.states.insert s
          { descriptorOf sm s with data := (descriptorOf sm s).data.insert key v },
        trace := sm.trace } := by
  have hl := getOrCreateState_lookup_self sm s
  have hf := getOrCreateState_fst sm s
  unfold DataStore StateMachine.Data
  simp only [hl, hf]
  simp [getOrCreateState_state, getOrCreateState_trace]

theorem SetState_states (sm : StateMachine) (s : State) :
    (SetState sm s).2.states = sm.states := by
  unfold SetState
  split
  · rfl
  · split
    · rfl
    · split
      · split <;> rfl
      · rfl

theorem Process_states (sm : StateMachine) (e : Event) :
    (Process sm e).2.states = sm.states := by
  unfold Process
  split
  · rfl
  · split
    · rfl
    · split
      · rfl
      · split
        · rfl
        · split <;> rfl

theorem SetState_state (sm : StateMachine) (s : State) :
    (SetState sm s).2.state = sm.state ∨ ((SetState sm s).2.state = s ∧ s ∈ sm.states) := by
  unfold SetState
  split
  · exact Or.inl rfl
  · split
    · exact Or.inl rfl
    · rename_i ns hns
      split
      · split
        · exact Or.inl rfl
        · exact Or.inr ⟨rfl, mem_of_lookup _ _ _ hns⟩
      · exact Or.inr ⟨rfl, mem_of_lookup _ _ _ hns⟩

theorem Process_state (sm : StateMachine) (e : Event) :
    (Process sm e).2.state = sm.state ∨ (Process sm e).2.state ∈ sm.states := by
  unfold Process
  split
  · exact Or.inl rfl
  · split
    · exact Or.inl rfl
    · split
      · exact Or.inl rfl
      · split
        · exact Or.inl rfl
        · split
          · exact Or.inl rfl
          · rename_i t ht
            exact Or.inr (mem_of_lookup _ _ _ ht)

theorem step_state (sm : StateMachine) (op : Op) :
    (step sm op).state = sm.state ∨ (step sm op).state ∈ sm.states := by
  cases op with
  | AddTransition source input target => left; rw [step, AddTransition_snd]
  | SetOnEntry state action =>
    cases action with
    | none => left; rw [step, SetOnEntry_none, getOrCreateState_state]
    | some a => left; rw [step, SetOnEntry_some]
  | SetOnExit state action =>
    cases action with
    | none => left; rw [step, SetOnExit_none, getOrCreateState_state]
    | some a => left; rw [step, SetOnExit_some]
  | Data state => left; rw [step, Data_snd, getOrCreateState_state]
  | DataStore state key v => left; rw [step, DataStore_eq]
  | SetState state =>
    rcases SetState_state sm state with h | h
    · exact Or.inl h
    · refine Or.inr ?_
      show (SetState sm state).2.state ∈ sm.states
      rw [h.1]
      exact h.2
  | Process event => exact Process_state sm event
  | State => exact Or.inl rfl
  | States => exact Or.inl rfl
  | OutStates source => exact Or.inl rfl
  | ValidEvents state => exact Or.inl rfl
  | IsValidEvent state event => exact Or.inl rfl

theorem mem_step (sm : StateMachine) (op : Op) (k : State) :
    k ∈ (step sm op).states ↔ k ∈ sm.states ∨ op.introduces k = true := by
  cases op with
  | AddTransition source input target =>
    rw [step, AddTransition_snd]
    simp only [AList.mem_insert, mem_getOrCreateState, Op.introduces, Bool.or_eq_true,
      decide_eq_true_eq]
    constructor
    · rintro (h | h | h | h)
      · exact Or.inr (Or.inl h.symm)
      · exact Or.inr (Or.inl h.symm)
      · exact Or.inr (Or.inr h.symm)
      · exact Or.inl h
    · rintro (h | h | h)
      · exact Or.inr (Or.inr (Or.inr h))
      · exact Or.inl h.symm
      · exact Or.inr (Or.inr (Or.inl h.symm))
  | SetOnEntry state action =>
    cases action with
    | none =>
      rw [step, SetOnEntry_none, mem_getOrCreateState]
      simp only [Op.introduces, decide_eq_true_eq]
      constructor
      · rintro (h | h)
        · exact Or.inr h.symm
        · exact Or.inl h
      · rintro (h | h)
        · exact Or.inr h
        · exact Or.inl h.symm
    | some a =>
      rw [step, SetOnEntry_some]
      simp only [AList.mem_insert, mem_getOrCreateState, Op.introduces, decide_eq_true_eq]
      constructor
      · rintro (h | h | h)
        · exact Or.inr h.symm
        · exact Or.inr h.symm
        · exact Or.inl h
      · rintro (h | h)
        · exact Or.inr (Or.inr h)
        · exact Or.inl h.symm
  | SetOnExit state action =>
    cases action with
    | none =>
      rw [step, SetOnExit_none, mem_getOrCreateState]
      simp only [Op.introduces, decide_eq_true_eq]
      constructor
      · rintro (h | h)
        · exact Or.inr h.symm
        · exact Or.inl h
      · rintro (h | h)
        · exact Or.inr h
        · exact Or.inl h.symm
    | some a =>
      rw [step, SetOnExit_some]
      simp only [AList.mem_insert, mem_getOrCreateState, Op.introduces, decide_eq_true_eq]
      constructor
      · rintro (h | h | h)
        · exact Or.inr h.symm
        · exact Or.inr h.symm
        · exact Or.inl h
      · rintro (h | h)
        · exact Or.inr (Or.inr h)
        · exact Or.inl h.symm
  | Data state =>
    rw [step, Data_snd, mem_getOrCreateState]
    simp only [Op.introduces, decide_eq_true_eq]
    constructor
    · rintro (h | h)
      · exact Or.inr h.symm
      · exact Or.inl h
    · rintro (h | h)
      · exact Or.inr h
      · exact Or.inl h.symm
  | DataStore state key v =>
    rw [step, DataStore_eq]
    simp only [AList.mem_insert, mem_getOrCreateState, Op.introduces, decide_eq_true_eq]
    constructor
    · rintro (h | h | h)
      · exact Or.inr h.symm
      · exact Or.inr h.symm
      · exact Or.inl h
    · rintro (h | h)
      · exact Or.inr (Or.inr h)
      · exact Or.inl h.symm
  | SetState state => rw [step, SetState_states]; simp [Op.introduces]
  | Process event => rw [step, Process_states]; simp [Op.introduces]
  | State => simp [step, Op.introduces]
  | States => simp [step, Op.introduces]
  | OutStates source => simp [step, Op.introduces]
  | ValidEvents state => simp [step, Op.introduces]
  | IsValidEvent state event => simp [step, Op.introduces]


theorem descriptorOf_mk_insert (st : State) (m : GoMap State stateDescriptor) (tr : List Effect)
    (s k : State) (d : stateDescriptor) :
    descriptorOf { state := st, states := m.insert s d, trace := tr } k =
      if k = s then d else (m.lookup k).getD (newStateDescriptor k) := by
  unfold descriptorOf
  by_cases h : k = s
  · subst h
    simp [AList.lookup_insert]
  · simp [AList.lookup_insert_ne h, h]

theorem descriptorOf_AddTransition (sm : StateMachine) (source : State) (input : Event)
    (target k : State) :
    descriptorOf (AddTransition sm source input target).2 k =
      if k = source then
        { descriptorOf sm source with
          transitions := (descriptorOf sm source).transitions.insert input target }
      else descriptorOf sm k := by
  rw [AddTransition_snd, descriptorOf_mk_insert]
  split
  · rfl
  · exact (descriptorOf_getOrCreateState _ source k).trans
      (descriptorOf_getOrCreateState sm target k)

theorem descriptorOf_SetOnEntry (sm : StateMachine) (s : State) (action : Option Action)
    (k : State) :
    descriptorOf (SetOnEntry sm s action) k =
      if k = s then
        { descriptorOf sm s with onEntry := action.getD (descriptorOf sm s).onEntry }
      else descriptorOf sm k := by
  cases action with
  | none =>
    rw [SetOnEntry_none, descriptorOf_getOrCreateState]
    split
    · rename_i h
      rw [h]
      rfl
    · rfl
  | some a =>
    rw [SetOnEntry_some, descriptorOf_mk_insert]
    split
    · rfl
    · exact descriptorOf_getOrCreateState sm s k

theorem descriptorOf_SetOnExit (sm : StateMachine) (s : State) (action : Option Action)
    (k : State) :
    descriptorOf (SetOnExit sm s action) k =
      if k = s then
        { descriptorOf sm s with onExit := action.getD (descriptorOf sm s).onExit }
      else descriptorOf sm k := by
  cases action with
  | none =>
    rw [SetOnExit_none, descriptorOf_getOrCreateState]
    split
    · rename_i h
      rw [h]
      rfl
    · rfl
  | some a =>
    rw [SetOnExit_some, descriptorOf_mk_insert]
    split
    · rfl
    · exact descriptorOf_getOrCreateState sm s k

theorem descriptorOf_DataStore (sm : StateMachine) (s : State) (key : String) (v : Value)
    (k : State) :
    descriptorOf (DataStore sm s key v) k =
      if k = s then { descriptorOf sm s with data := (descriptorOf sm s).data.insert key v }
      else descriptorOf sm k := by
  rw [DataStore_eq, descriptorOf_mk_insert]
  split
  · rfl
  · exact descriptorOf_getOrCreateState sm s k

theorem descriptorOf_congr (sm1 sm2 : StateMachine) (h : sm1.states = sm2.states) (k : State) :
    descriptorOf sm1 k = descriptorOf sm2 k := by
  unfold descriptorOf
  rw [h]

theorem transitions_step (sm : StateMachine) (op : Op) (k : State) :
    (descriptorOf (step sm op) k).transitions = (descriptorOf sm k).transitions ∨
      ∃ input target, op = Op.AddTransition k input target ∧
        (descriptorOf (step sm op) k).transitions =
          (descriptorOf sm k).transitions.insert input target := by
  cases op with
  | AddTransition source input target =>
    rw [step, descriptorOf_AddTransition]
    by_cases hk : k = source
    · subst hk
      exact Or.inr ⟨input, target, rfl, by simp⟩
    · exact Or.inl (by simp [hk])
  | SetOnEntry state action =>
    rw [step, descriptorOf_SetOnEntry]
    by_cases hk : k = state
    · subst hk
      exact Or.inl (by simp)
    · exact Or.inl (by simp [hk])
  | SetOnExit state action =>
    rw [step, descriptorOf_SetOnExit]
    by_cases hk : k = state
    · subst hk
      exact Or.inl (by simp)
    · exact Or.inl (by simp [hk])
  | Data state => rw [step, Data_snd, descriptorOf_getOrCreateState]; exact Or.inl rfl
  | DataStore state key v =>
    rw [step, descriptorOf_DataStore]
    by_cases hk : k = state
    · subst hk
      exact Or.inl (by simp)
    · exact Or.inl (by simp [hk])
  | SetState state =>
    rw [step, descriptorOf_congr _ sm (SetState_states sm state)]; exact Or.inl rfl
  | Process event =>
    rw [step, descriptorOf_congr _ sm (Process_states sm event)]; exact Or.inl rfl
  | State => exact Or.inl rfl
  | States => exact Or.inl rfl
  | OutStates source => exact Or.inl rfl
  | ValidEvents state => exact Or.inl rfl
  | IsValidEvent state event => exact Or.inl rfl

theorem hasTransition_step (sm : StateMachine) (op : Op) (k : State) (e : Event) (t : State)
    (h : HasTransition (step sm op) k e t) :
    HasTransition sm k e t ∨ op.introduces t = true := by
  rw [hasTransition_iff] at h ⊢
  rcases transitions_step sm op k with h1 | ⟨input, target, hop, h1⟩
  · exact Or.inl (h1 ▸ h)
  · rw [h1] at h
    by_cases he : e = input
    · subst he
      rw [AList.lookup_insert] at h
      right
      rw [hop]
      simp only [Op.introduces, Bool.or_eq_true, decide_eq_true_eq]
      exact Or.inr (Option.some.inj h)
    · rw [AList.lookup_insert_ne he] at h
      exact Or.inl h

theorem consistent_New : Consistent New := by
  refine ⟨fun h => absurd rfl h, ?_⟩
  rintro source event target ⟨s, hs, _⟩
  simp [New] at hs

theorem consistent_step (sm : StateMachine) (op : Op) (h : Consistent sm) :
    Consistent (step sm op) := by
  refine ⟨fun hne => ?_, fun source event target ht => ?_⟩
  · rcases step_state sm op with hs | hs
    · rw [hs] at hne ⊢
      exact (mem_step sm op _).mpr (Or.inl (h.1 hne))
    · exact (mem_step sm op _).mpr (Or.inl hs)
  · rcases hasTransition_step sm op source event target ht with h1 | h1
    · exact (mem_step sm op _).mpr (Or.inl (h.2 source event target h1))
    · exact (mem_step sm op _).mpr (Or.inr h1)

theorem consistent_run (ops : List Op) (sm : StateMachine) (h : Consistent sm) :
    Consistent (run sm ops) := by
  induction ops generalizing sm with
  | nil => exact h
  | cons op ops ih => exact ih (step sm op) (consistent_step sm op h)

theorem consistent_of_reachable (sm : StateMachine) (h : Reachable sm) : Consistent sm := by
  obtain ⟨ops, rfl⟩ := h
  exact consistent_run ops New consistent_New

theorem run_append (sm : StateMachine) (ops1 ops2 : List Op) :
    run sm (ops1 ++ ops2) = run (run sm ops1) ops2 := by
  unfold run
  exact List.foldl_append _ _ _ _

theorem mem_run (ops : List Op) (sm : StateMachine) (k : State) :
    k ∈ (run sm ops).states ↔ k ∈ sm.states ∨ ∃ op ∈ ops, op.introduces k = true := by
  induction ops generalizing sm with
  | nil => simp [run]
  | cons op ops ih =>
    show k ∈ (run (step sm op) ops).states ↔ _
    rw [ih, mem_step]
    simp only [List.mem_cons, exists_eq_or_imp]
    tauto

theorem length_ne_zero_of_lookup {ν : Type} (m : GoMap Event ν) (e : Event) (v : ν)
    (h : m.lookup e = some v) : ¬ m.entries.length = 0 := by
  have hmem : (⟨e, v⟩ : Sigma (fun _ : Event => ν)) ∈ m.entries := AList.mem_lookup_iff.mp h
  intro h0
  rw [List.length_eq_zero] at h0
  rw [h0] at hmem
  exact List.not_mem_nil _ hmem

theorem Process_of_transition (sm : StateMachine) (event : Event) (s t : stateDescriptor)
    (target : State) (hc : sm.state ≠ "") (hs : sm.states.lookup sm.state = some s)
    (he : s.transitions.lookup event = some target) (ht : sm.states.lookup target = some t) :
    Process sm event =
      (Result.ok,
        { state := target, states := sm.states,
          trace := sm.trace ++ [Effect.exit s.onExit, Effect.assign target,
            Effect.entry t.onEntry] }) := by
  unfold Process
  rw [if_neg hc]
  simp only [hs]
  rw [if_neg (length_ne_zero_of_lookup _ _ _ he)]
  simp only [he, ht]
  simp [StateMachine.emit, StateMachine.assign]

theorem Process_ok_inv (sm : StateMachine) (event : Event) (h : (Process sm event).1 = Result.ok) :
    ∃ s target t, sm.state ≠ "" ∧ sm.states.lookup sm.state = some s ∧
      s.transitions.lookup event = some target ∧ sm.states.lookup target = some t := by
  unfold Process at h
  split at h
  · exact absurd h (by simp)
  · rename_i hc
    split at h
    · exact absurd h (by simp)
    · rename_i s hs
      split at h
      · exact absurd h (by simp)
      · split at h
        · exact absurd h (by simp)
        · rename_i target he
          split at h
          · exact absurd h (by simp)
          · rename_i t ht
            exact ⟨s, target, t, hc, hs, he, ht⟩

theorem SetState_of_unset (sm : StateMachine) (target : State) (ns : stateDescriptor)
    (hne : sm.state ≠ target) (hc : sm.state = "") (hns : sm.states.lookup target = some ns) :
    SetState sm target =
      (Result.ok,
        { state := target, states := sm.states,
          trace := sm.trace ++ [Effect.assign target, Effect.entry ns.onEntry] }) := by
  unfold SetState
  rw [if_neg hne]
  simp only [hns]
  rw [if_neg (not_not.mpr hc)]
  simp [StateMachine.emit, StateMachine.assign]

theorem SetState_of_set (sm : StateMachine) (target : State) (cs ns : stateDescriptor)
    (hne : sm.state ≠ target) (hc : sm.state ≠ "") (hcs : sm.states.lookup sm.state = some cs)
    (hns : sm.states.lookup target = some ns) :
    SetState sm target =
      (Result.ok,
        { state := target, states := sm.states,
          trace := sm.trace ++ [Effect.exit cs.onExit, Effect.assign target,
            Effect.entry ns.onEntry] }) := by
  unfold SetState
  rw [if_neg hne]
  simp only [hns]
  rw [if_pos hc]
  simp only [hcs]
  simp [StateMachine.emit, StateMachine.assign]

theorem SetState_ok_inv (sm : StateMachine) (target : State) (hne : sm.state ≠ target)
    (h : (SetState sm target).1 = Result.ok) :
    ∃ ns, sm.states.lookup target = some ns ∧
      (sm.state = "" ∨ ∃ cs, sm.state ≠ "" ∧ sm.states.lookup sm.state = some cs) := by
  unfold SetState at h
  rw [if_neg hne] at h
  split at h
  · exact absurd h (by simp)
  · rename_i ns hns
    refine ⟨ns, hns, ?_⟩
    split at h
    · rename_i hc
      split at h
      · exact absurd h (by simp)
      · rename_i cs hcs
        exact Or.inr ⟨cs, hc, hcs⟩
    · rename_i hc
      exact Or.inl (not_not.mp hc)

theorem SetState_unknown (sm : StateMachine) (s : State) (hne : sm.state ≠ s)
    (hs : s ∉ sm.states) : SetState sm s = (Result.error (Error.doesNotExist s), sm) := by
  unfold SetState
  rw [if_neg hne]
  have hl : sm.states.lookup s = none := AList.lookup_eq_none.mpr hs
  simp only [hl]

theorem state_ne_empty_run (ops : List Op) (sm : StateMachine)
    (hops : ∀ op ∈ ops, op.introduces "" = false) (hk : ("" : State) ∉ sm.states)
    (hs : sm.state ≠ "") : (run sm ops).state ≠ "" := by
  induction ops generalizing sm with
  | nil => exact hs
  | cons op ops ih =>
    have hop : op.introduces "" = false := hops op (List.mem_cons_self _ _)
    have hk1 : ("" : State) ∉ (step sm op).states := by
      rw [mem_step, hop]
      simp [hk]
    have hs1 : (step sm op).state ≠ "" := by
      rcases step_state sm op with h | h
      · rw [h]; exact hs
      · intro h0
        rw [h0] at h
        exact hk h
    exact ih (step sm op) (fun o ho => hops o (List.mem_cons_of_mem _ ho)) hk1 hs1

theorem lookup_testMachine_idle :
    testMachine.states.lookup "idle" =
      some { name := "idle", transitions := AList.insert "PLAY" "playing" ∅, data := ∅,
             onEntry := Action.func 1, onExit := Action.func 2 } := by
  rfl

theorem hasTransition_testMachine : HasTransition testMachine "idle" "PLAY" "playing" :=
  ⟨_, lookup_testMachine_idle, by decide⟩

/-- C1: on a machine built from `New()` whose current state is set, `Process(e)`
returns no error exactly when the current state has a transition for `e`; then
`State()` is the target of that transition and the registry is the one before
the call. -/
theorem C1_Process_succeeds_iff_transition (sm : StateMachine) (hr : Reachable sm)
    (hc : sm.State ≠ "") (e : Event) :
    ((Process sm e).1 = Result.ok ↔ ∃ t, HasTransition sm sm.State e t) ∧
      ∀ t, HasTransition sm sm.State e t →
        (Process sm e).1 = Result.ok ∧ (Process sm e).2.State = t ∧
          (Process sm e).2.states = sm.states := by
  have hcons := consistent_of_reachable sm hr
  have key : ∀ t, HasTransition sm sm.state e t →
      (Process sm e).1 = Result.ok ∧ (Process sm e).2.State = t ∧
        (Process sm e).2.states = sm.states := by
    rintro t ⟨s, hs, he⟩
    have hmem : t ∈ sm.states := hcons.2 sm.state e t ⟨s, hs, he⟩
    obtain ⟨d, hd⟩ := Option.isSome_iff_exists.mp (AList.lookup_isSome.mpr hmem)
    rw [Process_of_transition sm e s d t hc hs he hd]
    exact ⟨rfl, rfl, rfl⟩
  refine ⟨⟨fun h => ?_, fun ⟨t, ht⟩ => (key t ht).1⟩, key⟩
  obtain ⟨s, target, _, _, hs, he, _⟩ := Process_ok_inv sm e h
  exact ⟨target, s, hs, he⟩

theorem lookup_idleMachine_idle :
    idleMachine.states.lookup "idle" =
      some { name := "idle", transitions := AList.insert "PLAY" "playing" ∅, data := ∅,
             onEntry := Action.func 1, onExit := Action.func 2 } := by
  rfl

theorem C1_Process_succeeds_iff_transition_witness :
    (Process idleMachine "PLAY").1 = Result.ok ∧
      (Process idleMachine "PLAY").2.State = "playing" ∧
      (Process idleMachine "PLAY").2.states = idleMachine.states :=
  (C1_Process_succeeds_iff_transition idleMachine ⟨_, rfl⟩ (by decide) "PLAY").2 "playing"
    ⟨_, lookup_idleMachine_idle, by decide⟩

/-- C2: when `SetState(state)` or `Process(event)` returns an error, the machine
after the call is the machine before it: same current state, same registry, and
no hook call or register write was added to the trace. -/
theorem C2_failed_call_leaves_machine (sm : StateMachine) (state : State) (event : Event)
    (err : Error) :
    ((SetState sm state).1 = Result.error err → (SetState sm state).2 = sm) ∧
      ((Process sm event).1 = Result.error err → (Process sm event).2 = sm) := by
  constructor
  · intro h
    unfold SetState at h ⊢
    split
    · rfl
    · rename_i hne
      rw [if_neg hne] at h
      split
      · rfl
      · rename_i ns hns
        simp only [hns] at h
        split
        · rename_i hc
          rw [if_pos hc] at h
          split
          · rfl
          · rename_i cs hcs
            simp only [hcs] at h
            exact absurd h (by simp)
        · rename_i hc
          rw [if_neg hc] at h
          exact absurd h (by simp)
  · intro h
    by_cases hc : sm.state = ""
    · simp [Process, hc]
    · cases hs : sm.states.lookup sm.state with
      | none => simp [Process, hc, hs]
      | some s =>
        by_cases hl : s.transitions.entries.length = 0
        · simp [Process, hc, hs, hl]
        · cases he : s.transitions.lookup event with
          | none => simp [Process, hc, hs, hl, he]
          | some target =>
            cases ht : sm.states.lookup target with
            | none => simp [Process, hc, hs, hl, he, ht]
            | some t =>
              rw [Process_of_transition sm event s t target hc hs he ht] at h
              exact absurd h (by simp)

theorem C2_failed_call_leaves_machine_witness :
    (SetState testMachine "foo").2 = testMachine ∧
      (Process idleMachine "PUSH").2 = idleMachine :=
  ⟨(C2_failed_call_leaves_machine testMachine "foo" "PUSH" (Error.doesNotExist "foo")).1
      (by decide),
    (C2_failed_call_leaves_machine idleMachine "foo" "PUSH"
      (Error.doesNotAccept "idle" "PUSH")).2 (by decide)⟩

/-- C3 fails as stated: none of the calls that build the machine of `TestFSM`
passes the empty identifier, the current state of that machine is unset, and
`SetState("")` returns no error on it. -/
theorem C3_counterexample :
    (∀ op ∈ testOps, op.introduces "" = false) ∧
      (run New testOps).State = "" ∧
      (SetState (run New testOps) "").1 = Result.ok := by
  decide

/-- C3, amended: on a machine built from `New()`, for an identifier `s` that was
never passed to `AddTransition`, `SetOnEntry`, `SetOnExit` or `Data`, `SetState(s)`
returns the unknown-state error and `State()` is unchanged, except for the empty
identifier on a machine whose current state is unset: there `SetState` returns
no error and leaves the machine as it was. -/
theorem C3_SetState_unknown_state (ops : List Op) (s : State)
    (h : ∀ op ∈ ops, op.introduces s = false) :
    (¬ (s = "" ∧ (run New ops).State = "") →
        (SetState (run New ops) s).1 = Result.error (Error.doesNotExist s) ∧
          (SetState (run New ops) s).2.State = (run New ops).State) ∧
      ((s = "" ∧ (run New ops).State = "") →
        (SetState (run New ops) s).1 = Result.ok ∧ (SetState (run New ops) s).2 = run New ops) := by
  have hs : s ∉ (run New ops).states := by
    rw [mem_run]
    rintro (h0 | ⟨op, hop, hi⟩)
    · exact AList.not_mem_empty s h0
    · rw [h op hop] at hi
      exact absurd hi (by simp)
  have hcons : Consistent (run New ops) := consistent_run ops New consistent_New
  constructor
  · intro hn
    have hne : (run New ops).state ≠ s := by
      intro heq
      have h0 : (run New ops).state = "" := by
        by_contra hc
        exact hs (heq ▸ hcons.1 hc)
      exact hn ⟨heq ▸ h0, h0⟩
    rw [SetState_unknown _ s hne hs]
    exact ⟨rfl, rfl⟩
  · rintro ⟨h1, h2⟩
    have heq : (run New ops).state = s := h2.trans h1.symm
    unfold SetState
    rw [if_pos heq]
    exact ⟨rfl, rfl⟩

theorem C3_SetState_unknown_state_witness :
    (SetState (run New testOps) "foo").1 = Result.error (Error.doesNotExist "foo") ∧
      (SetState (run New testOps) "foo").2.State = (run New testOps).State :=
  (C3_SetState_unknown_state testOps "foo" (by decide)).1 (by decide)

/-- C4 fails as stated: after `AddTransition("a", "E", "")` and `SetState("a")`
the current state is set, and the further call `Process("E")` makes `State()`
return the empty identifier again. -/
theorem C4_counterexample :
    (run New [Op.AddTransition "a" "E" "", Op.SetState "a"]).State ≠ "" ∧
      (run (run New [Op.AddTransition "a" "E" "", Op.SetState "a"]) [Op.Process "E"]).State
        = "" := by
  decide

/-- C4, amended: when the empty identifier is never passed to `AddTransition`
(as source or as target), `SetOnEntry`, `SetOnExit` or `Data`, a current state
that is set stays set under every further sequence of calls. -/
theorem C4_state_stays_set (ops1 ops2 : List Op)
    (h : ∀ op ∈ ops1 ++ ops2, op.introduces "" = false)
    (hs : (run New ops1).State ≠ "") : (run (run New ops1) ops2).State ≠ "" := by
  have hk : ("" : State) ∉ (run New ops1).states := by
    rw [mem_run]
    rintro (h0 | ⟨op, hop, hi⟩)
    · exact AList.not_mem_empty _ h0
    · rw [h op (List.mem_append_left _ hop)] at hi
      exact absurd hi (by simp)
  exact state_ne_empty_run ops2 (run New ops1)
    (fun op hop => h op (List.mem_append_right _ hop)) hk hs

theorem C4_state_stays_set_witness :
    (run (run New (testOps ++ [Op.SetState "idle"])) [Op.Process "PLAY", Op.SetState "foo"]).State
      ≠ "" :=
  C4_state_stays_set (testOps ++ [Op.SetState "idle"]) [Op.Process "PLAY", Op.SetState "foo"]
    (by decide) (by decide)

/-- C5 fails as stated: after the single call `SetOnEntry("x", nil)` on a new
machine, `"x"` has a descriptor, the table has no transition at all, and
`States()` returns `["x"]`. -/
theorem C5_counterexample :
    "x" ∈ (SetOnEntry New "x" none).states ∧
      (∀ source event target, ¬ HasTransition (SetOnEntry New "x" none) source event target) ∧
      States (SetOnEntry New "x" none) = ["x"] := by
  refine ⟨by decide, ?_, by decide⟩
  rintro source event target ⟨s, hs, ht⟩
  have hmem : (⟨source, s⟩ : Sigma (fun _ : State => stateDescriptor)) ∈
      (SetOnEntry New "x" none).states.entries := AList.mem_lookup_iff.mp hs
  have hent : (SetOnEntry New "x" none).states.entries = [⟨"x", newStateDescriptor "x"⟩] := by
    rfl
  rw [hent, List.mem_singleton] at hmem
  have hs2 : s = newStateDescriptor "x" := by
    cases hmem
    rfl
  subst hs2
  simp [newStateDescriptor] at ht

/-- C5, amended: `States()` lists every state that has a descriptor.  A state
whose descriptor was created through `SetOnEntry`, `SetOnExit` or `Data` is in
the result of `States()`, also when it is on no transition. -/
theorem C5_States_lists_every_descriptor (sm : StateMachine) :
    (∀ s, s ∈ sm.states → s ∈ States sm) ∧
      ∀ s action, s ∈ States (SetOnEntry sm s action) ∧ s ∈ States (SetOnExit sm s action) ∧
        s ∈ States (sm.Data s).2 := by
  refine ⟨fun s hs => (mem_States sm s).mpr (Or.inl hs), fun s action => ⟨?_, ?_, ?_⟩⟩
  · refine (mem_States _ s).mpr (Or.inl ?_)
    exact (mem_step sm (Op.SetOnEntry s action) s).mpr (Or.inr (by simp [Op.introduces]))
  · refine (mem_States _ s).mpr (Or.inl ?_)
    exact (mem_step sm (Op.SetOnExit s action) s).mpr (Or.inr (by simp [Op.introduces]))
  · refine (mem_States _ s).mpr (Or.inl ?_)
    exact (mem_step sm (Op.Data s) s).mpr (Or.inr (by simp [Op.introduces]))

theorem C5_States_lists_every_descriptor_witness :
    "x" ∈ States (SetOnEntry New "x" none) :=
  (C5_States_lists_every_descriptor (SetOnEntry New "x" none)).1 "x" (by decide)

/-- C6: the result of `States()` is strictly ascending, and every source and
every target of a transition of the table is in it. -/
theorem C6_States_sorted_and_complete (sm : StateMachine) :
    List.Sorted (fun a b => a < b) (States sm) ∧
      ∀ source event target, HasTransition sm source event target →
        source ∈ States sm ∧ target ∈ States sm := by
  refine ⟨sortSlice_strictSorted _ (AList.keys_nodup _), ?_⟩
  rintro source event target ⟨s, hs, ht⟩
  exact ⟨(mem_States sm source).mpr (Or.inl (mem_of_lookup _ _ _ hs)),
    (mem_States sm target).mpr (Or.inr ⟨source, event, s, hs, ht⟩)⟩

theorem C6_States_sorted_and_complete_witness :
    List.Sorted (fun a b => a < b) (States testMachine) ∧
      "idle" ∈ States testMachine ∧ "playing" ∈ States testMachine :=
  ⟨(C6_States_sorted_and_complete testMachine).1,
    (C6_States_sorted_and_complete testMachine).2 "idle" "PLAY" "playing"
      hasTransition_testMachine⟩

/-- C7: `ValidEvents(s)` is strictly ascending, its members are the events for
which `IsValidEvent(s, e)` is true, these are the events with a transition from
`s`, and the list is empty when `s` has no descriptor. -/
theorem C7_ValidEvents_sorted_exact (sm : StateMachine) (s : State) :
    List.Sorted (fun a b => a < b) (ValidEvents sm s) ∧
      (∀ e, e ∈ ValidEvents sm s ↔ IsValidEvent sm s e = true) ∧
      (∀ e, IsValidEvent sm s e = true ↔ ∃ t, HasTransition sm s e t) ∧
      (sm.states.lookup s = none → ValidEvents sm s = []) := by
  unfold ValidEvents IsValidEvent HasTransition
  cases hs : sm.states.lookup s with
  | none => simp
  | some d =>
    refine ⟨sortSlice_strictSorted _ (AList.keys_nodup _), fun e => ?_, fun e => ?_, ?_⟩
    · simp only []
      rw [mem_sortSlice, AList.lookup_isSome, AList.mem_keys]
    · simp [Option.isSome_iff_exists]
    · intro h
      exact absurd h (by simp)

theorem C7_ValidEvents_sorted_exact_witness :
    List.Sorted (fun a b => a < b) (ValidEvents testMachine "idle") ∧
      "PLAY" ∈ ValidEvents testMachine "idle" ∧
      (∃ t, HasTransition testMachine "idle" "PLAY" t) ∧
      ValidEvents testMachine "foo" = [] :=
  ⟨(C7_ValidEvents_sorted_exact testMachine "idle").1,
    ((C7_ValidEvents_sorted_exact testMachine "idle").2.1 "PLAY").mpr (by decide),
    ((C7_ValidEvents_sorted_exact testMachine "idle").2.2.1 "PLAY").mp (by decide),
    (C7_ValidEvents_sorted_exact testMachine "foo").2.2.2 (by rfl)⟩

/-- C8: `OutStates(s)` is strictly ascending, its members are the states that
some event maps `s` to in the transition table, and the list is empty when `s`
has no descriptor. -/
theorem C8_OutStates_sorted_exact (sm : StateMachine) (s : State) :
    List.Sorted (fun a b => a < b) (OutStates sm s) ∧
      (∀ t, t ∈ OutStates sm s ↔ ∃ e, HasTransition sm s e t) ∧
      (sm.states.lookup s = none → OutStates sm s = []) := by
  unfold OutStates HasTransition
  cases hs : sm.states.lookup s with
  | none => simp
  | some d =>
    refine ⟨sortSlice_strictSorted _ (AList.keys_nodup _), fun t => ?_, ?_⟩
    · simp only []
      rw [mem_sortSlice, ← AList.mem_keys, mem_markTargets]
      simp [AList.not_mem_empty]
    · intro h
      exact absurd h (by simp)

theorem C8_OutStates_sorted_exact_witness :
    List.Sorted (fun a b => a < b) (OutStates testMachine "idle") ∧
      "playing" ∈ OutStates testMachine "idle" ∧
      OutStates testMachine "foo" = [] :=
  ⟨(C8_OutStates_sorted_exact testMachine "idle").1,
    ((C8_OutStates_sorted_exact testMachine "idle").2.1 "playing").mpr
      ⟨"PLAY", hasTransition_testMachine⟩,
    (C8_OutStates_sorted_exact testMachine "foo").2.2 (by rfl)⟩

/-- C9: a successful `SetState(target)` with `target` different from the current
state adds to the trace, in this order and nothing else, the call of the exit
hook of the previous current state (no such call when no state was set), the
write of `target` to the register, and the call of the entry hook of `target`.
A successful `Process(event)` adds the call of the exit hook of the current
state, the write of the target of the transition, and the call of the entry
hook of that target. -/
theorem C9_exit_assign_entry (sm : StateMachine) :
    (∀ target, sm.State ≠ target → (SetState sm target).1 = Result.ok →
        ∃ ns, sm.states.lookup target = some ns ∧ (SetState sm target).2.State = target ∧
          ((sm.State = "" ∧
              (SetState sm target).2.trace =
                sm.trace ++ [Effect.assign target, Effect.entry ns.onEntry]) ∨
            ∃ cs, sm.State ≠ "" ∧ sm.states.lookup sm.State = some cs ∧
              (SetState sm target).2.trace =
                sm.trace ++ [Effect.exit cs.onExit, Effect.assign target,
                  Effect.entry ns.onEntry])) ∧
      ∀ event, (Process sm event).1 = Result.ok →
        ∃ s target t, sm.states.lookup sm.State = some s ∧
          s.transitions.lookup event = some target ∧ sm.states.lookup target = some t ∧
          (Process sm event).2.State = target ∧
          (Process sm event).2.trace =
            sm.trace ++ [Effect.exit s.onExit, Effect.assign target, Effect.entry t.onEntry] := by
  constructor
  · intro target hne hok
    obtain ⟨ns, hns, hcase⟩ := SetState_ok_inv sm target hne hok
    rcases hcase with hc | ⟨cs, hc, hcs⟩
    · rw [SetState_of_unset sm target ns hne hc hns]
      exact ⟨ns, hns, rfl, Or.inl ⟨hc, rfl⟩⟩
    · rw [SetState_of_set sm target cs ns hne hc hcs hns]
      exact ⟨ns, hns, rfl, Or.inr ⟨cs, hc, hcs, rfl⟩⟩
  · intro event hok
    obtain ⟨s, target, t, hc, hs, he, ht⟩ := Process_ok_inv sm event hok
    rw [Process_of_transition sm event s t target hc hs he ht]
    exact ⟨s, target, t, hs, he, ht, rfl, rfl⟩

theorem C9_exit_assign_entry_witness :
    (∃ ns, testMachine.states.lookup "idle" = some ns ∧
        (SetState testMachine "idle").2.State = "idle" ∧
        ((testMachine.State = "" ∧
            (SetState testMachine "idle").2.trace =
              testMachine.trace ++ [Effect.assign "idle", Effect.entry ns.onEntry]) ∨
          ∃ cs, testMachine.State ≠ "" ∧ testMachine.states.lookup testMachine.State = some cs ∧
            (SetState testMachine "idle").2.trace =
              testMachine.trace ++ [Effect.exit cs.onExit, Effect.assign "idle",
                Effect.entry ns.onEntry])) ∧
      ∃ s target t, idleMachine.states.lookup idleMachine.State = some s ∧
        s.transitions.lookup "PLAY" = some target ∧ idleMachine.states.lookup target = some t ∧
        (Process idleMachine "PLAY").2.State = target ∧
        (Process idleMachine "PLAY").2.trace =
          idleMachine.trace ++ [Effect.exit s.onExit, Effect.assign target,
            Effect.entry t.onEntry] :=
  ⟨(C9_exit_assign_entry testMachine).1 "idle" (by decide) (by decide),
    (C9_exit_assign_entry idleMachine).2 "PLAY" (by decide)⟩

/-- C10: `SetState(c)` with `c` the current state returns no error and leaves
the machine as it was; in particular the trace is the same, so no hook was
called. -/
theorem C10_SetState_current_is_noop (sm : StateMachine) :
    SetState sm sm.State = (Result.ok, sm) := by
  unfold SetState StateMachine.State
  rw [if_pos rfl]

theorem eq_empty_iff_length {ν : Type} (m : GoMap Event ν) :
    m = ∅ ↔ m.entries.length = 0 := by
  constructor
  · intro h
    rw [h]
    rfl
  · intro h
    exact AList.ext (List.length_eq_zero.mp h)

theorem lookup_loopMachine_on :
    loopMachine.states.lookup "on" =
      some { name := "on", transitions := AList.insert "TICK" "on" ∅, data := ∅,
             onEntry := Action.func 5, onExit := Action.func 6 } := by
  rfl

/-- C11: when the current state `s` is set and the table has the self-loop
`(s, e) → s`, `Process(e)` returns no error, adds to the trace exactly the call
of the exit hook of `s`, the write of `s` to the register and the call of the
entry hook of `s`, and `State()` is still `s`.  This holds for every machine, so
for every machine built from `New()`. -/
theorem C11_self_loop_runs_both_hooks (sm : StateMachine) (e : Event)
    (hc : sm.State ≠ "") (h : HasTransition sm sm.State e sm.State) :
    ∃ d, sm.states.lookup sm.State = some d ∧
      (Process sm e).1 = Result.ok ∧
      (Process sm e).2.State = sm.State ∧
      (Process sm e).2.trace =
        sm.trace ++ [Effect.exit d.onExit, Effect.assign sm.State, Effect.entry d.onEntry] := by
  obtain ⟨d, hd, he⟩ := h
  refine ⟨d, hd, ?_⟩
  rw [Process_of_transition sm e d d sm.state hc hd he hd]
  exact ⟨rfl, rfl, rfl⟩

theorem C11_self_loop_runs_both_hooks_witness :
    ∃ d, loopMachine.states.lookup loopMachine.State = some d ∧
      (Process loopMachine "TICK").1 = Result.ok ∧
      (Process loopMachine "TICK").2.State = loopMachine.State ∧
      (Process loopMachine "TICK").2.trace =
        loopMachine.trace ++
          [Effect.exit d.onExit, Effect.assign loopMachine.State, Effect.entry d.onEntry] :=
  C11_self_loop_runs_both_hooks loopMachine "TICK" (by decide)
    ⟨_, lookup_loopMachine_on, by decide⟩

/-- C12: `Process(event)` decides its error in this order: the no-current-state
error when no state is set; otherwise the no-transitions error when the
transition map of the current state is empty, whatever the event; otherwise the
event-not-accepted error when the map has no entry for the event.  The texts of
the three errors are pairwise different, whatever the names and the escaping. -/
theorem C12_Process_error_order (sm : StateMachine) (event : Event) (esc : String → String) :
    (sm.State = "" → (Process sm event).1 = Result.error Error.noCurrentState) ∧
      (∀ s, sm.State ≠ "" → sm.states.lookup sm.State = some s →
        (s.transitions = ∅ → (Process sm event).1 = Result.error (Error.noTransitions s.name)) ∧
        (s.transitions ≠ ∅ → s.transitions.lookup event = none →
          (Process sm event).1 = Result.error (Error.doesNotAccept s.name event))) ∧
      ∀ n1 n2 e2,
        Error.message esc Error.noCurrentState ≠ Error.message esc (Error.noTransitions n1) ∧
        Error.message esc Error.noCurrentState ≠ Error.message esc (Error.doesNotAccept n2 e2) ∧
        Error.message esc (Error.noTransitions n1) ≠
          Error.message esc (Error.doesNotAccept n2 e2) := by
  refine ⟨fun hc => ?_, fun s hc hs => ⟨fun h0 => ?_, fun h0 he => ?_⟩, fun n1 n2 e2 => ⟨?_, ?_, ?_⟩⟩
  · have hc1 : sm.state = "" := hc
    simp [Process, hc1]
  · have hc1 : ¬ sm.state = "" := hc
    have hs1 : sm.states.lookup sm.state = some s := hs
    have hl : s.transitions.entries.length = 0 := (eq_empty_iff_length _).mp h0
    simp [Process, hc1, hs1, hl]
  · have hc1 : ¬ sm.state = "" := hc
    have hs1 : sm.states.lookup sm.state = some s := hs
    have hl : ¬ s.transitions.entries.length = 0 := fun hl => h0 ((eq_empty_iff_length _).mpr hl)
    simp [Process, hc1, hs1, hl, he]
  · intro h
    have h2 := congrArg (fun s => s.data.head?) h
    simp [Error.message, quoted, dquote] at h2
  · intro h
    have h2 := congrArg (fun s => s.data.head?) h
    simp [Error.message, quoted, dquote] at h2
  · intro h
    have h2 := congrArg (fun s => s.data.reverse.head?) h
    simp [Error.message, quoted, dquote] at h2

theorem C12_Process_error_order_witness :
    (Process testMachine "PLAY").1 = Result.error Error.noCurrentState ∧
      (Process (run New [Op.SetOnEntry "x" none, Op.SetState "x"]) "PLAY").1 =
        Result.error (Error.noTransitions "x") ∧
      (Process idleMachine "PUSH").1 = Result.error (Error.doesNotAccept "idle" "PUSH") :=
  ⟨(C12_Process_error_order testMachine "PLAY" id).1 (by decide),
    ((C12_Process_error_order (run New [Op.SetOnEntry "x" none, Op.SetState "x"]) "PLAY" id).2.1
      (newStateDescriptor "x") (by decide) (by rfl)).1 (by rfl),
    ((C12_Process_error_order idleMachine "PUSH" id).2.1 _ (by decide)
      lookup_idleMachine_idle).2 (by simp [AList.ext_iff]) (by decide)⟩

theorem mem_AddTransition (sm : StateMachine) (source : State) (input : Event)
    (target k : State) :
    k ∈ (AddTransition sm source input target).2.states ↔
      k ∈ sm.states ∨ k = source ∨ k = target := by
  have h := mem_step sm (Op.AddTransition source input target) k
  simp only [step, Op.introduces, Bool.or_eq_true, decide_eq_true_eq] at h
  rw [h]
  constructor
  · rintro (h1 | h1 | h1)
    · exact Or.inl h1
    · exact Or.inr (Or.inl h1.symm)
    · exact Or.inr (Or.inr h1.symm)
  · rintro (h1 | h1 | h1)
    · exact Or.inl h1
    · exact Or.inr (Or.inl h1.symm)
    · exact Or.inr (Or.inr h1.symm)

theorem AddTransition_of_mem (sm : StateMachine) (source : State) (input : Event) (target : State)
    (hs : source ∈ sm.states) (ht : target ∈ sm.states) :
    (AddTransition sm source input target).2 =
      { state := sm.state,
        states := sm.states.insert source
          { descriptorOf sm source with
            transitions := (descriptorOf sm source).transitions.insert input target },
        trace := sm.trace } := by
  rw [AddTransition_snd, getOrCreateState_idem sm target ht, getOrCreateState_idem sm source hs]

theorem AddTransition_twice (sm : StateMachine) (source : State) (input : Event) (target : State) :
    (AddTransition (AddTransition sm source input target).2 source input target).2 =
      (AddTransition sm source input target).2 := by
  have hs : source ∈ (AddTransition sm source input target).2.states :=
    (mem_AddTransition sm source input target source).mpr (Or.inr (Or.inl rfl))
  have ht : target ∈ (AddTransition sm source input target).2.states :=
    (mem_AddTransition sm source input target target).mpr (Or.inr (Or.inr rfl))
  rw [AddTransition_of_mem _ source input target hs ht, descriptorOf_AddTransition, if_pos rfl]
  rw [AddTransition_snd]
  simp only [AList.insert_insert]

/-- C13: `AddTransition(s, e, t)` returns no error; afterwards `(s, e)` maps to
`t` and to nothing else, every other pair of a source and an event maps as
before, the current state, the trace, every hook and every data bag are as
before, no descriptor is lost, and the same call a second time leaves the
machine as it was after the first. -/
theorem C13_AddTransition_effect (sm : StateMachine) (s : State) (e : Event) (t : State) :
    (AddTransition sm s e t).1 = Result.ok ∧
      HasTransition (AddTransition sm s e t).2 s e t ∧
      (∀ u, HasTransition (AddTransition sm s e t).2 s e u → u = t) ∧
      (∀ k ev u, (k ≠ s ∨ ev ≠ e) →
        (HasTransition (AddTransition sm s e t).2 k ev u ↔ HasTransition sm k ev u)) ∧
      (AddTransition sm s e t).2.State = sm.State ∧
      (AddTransition sm s e t).2.trace = sm.trace ∧
      (∀ k, (descriptorOf (AddTransition sm s e t).2 k).onEntry = (descriptorOf sm k).onEntry ∧
        (descriptorOf (AddTransition sm s e t).2 k).onExit = (descriptorOf sm k).onExit ∧
        (descriptorOf (AddTransition sm s e t).2 k).data = (descriptorOf sm k).data) ∧
      (∀ k, k ∈ sm.states → k ∈ (AddTransition sm s e t).2.states) ∧
      (AddTransition (AddTransition sm s e t).2 s e t).2 = (AddTransition sm s e t).2 := by
  refine ⟨rfl, ?_, fun u hu => ?_, fun k ev u hne => ?_, ?_, ?_, fun k => ?_, fun k hk => ?_,
    AddTransition_twice sm s e t⟩
  · rw [hasTransition_iff, descriptorOf_AddTransition, if_pos rfl]
    exact AList.lookup_insert _
  · rw [hasTransition_iff, descriptorOf_AddTransition, if_pos rfl] at hu
    simp only [AList.lookup_insert] at hu
    exact (Option.some.inj hu).symm
  · rw [hasTransition_iff, hasTransition_iff, descriptorOf_AddTransition]
    by_cases hk : k = s
    · subst hk
      rw [if_pos rfl]
      have hev : ev ≠ e := by
        rcases hne with h1 | h1
        · exact absurd rfl h1
        · exact h1
      simp only [AList.lookup_insert_ne hev]
    · rw [if_neg hk]
  · rw [AddTransition_snd]
    rfl
  · rw [AddTransition_snd]
  · rw [descriptorOf_AddTransition]
    by_cases hk : k = s
    · subst hk
      rw [if_pos rfl]
      exact ⟨rfl, rfl, rfl⟩
    · rw [if_neg hk]
      exact ⟨rfl, rfl, rfl⟩
  · exact (mem_AddTransition sm s e t k).mpr (Or.inl hk)

theorem C13_AddTransition_effect_witness :
    HasTransition (AddTransition testMachine "idle" "PLAY" "idle").2 "playing" "STOP" "idle" ∧
      "playing" ∈ (AddTransition testMachine "idle" "PLAY" "idle").2.states :=
  ⟨((C13_AddTransition_effect testMachine "idle" "PLAY" "idle").2.2.2.1 "playing" "STOP" "idle"
      (Or.inl (by decide))).mpr ⟨_, by rfl, by decide⟩,
    (C13_AddTransition_effect testMachine "idle" "PLAY" "idle").2.2.2.2.2.2.2.1 "playing"
      (by decide)⟩

/-- C14: `SetOnEntry(s, nil)` and `SetOnExit(s, nil)` leave the machine as it is
when `s` has a descriptor, and otherwise only register a fresh descriptor for
`s`, whose hooks are `NOOP`.  In both cases every descriptor, the current state
and the trace are as before; in particular a hook set earlier is kept. -/
theorem C14_nil_action_keeps_hooks (sm : StateMachine) (s : State) :
    (s ∈ sm.states → SetOnEntry sm s none = sm ∧ SetOnExit sm s none = sm) ∧
      (s ∉ sm.states →
        SetOnEntry sm s none =
          { state := sm.state, states := sm.states.insert s (newStateDescriptor s),
            trace := sm.trace } ∧
        SetOnExit sm s none =
          { state := sm.state, states := sm.states.insert s (newStateDescriptor s),
            trace := sm.trace } ∧
        (newStateDescriptor s).onEntry = Action.NOOP ∧
        (newStateDescriptor s).onExit = Action.NOOP) ∧
      (∀ k, descriptorOf (SetOnEntry sm s none) k = descriptorOf sm k ∧
        descriptorOf (SetOnExit sm s none) k = descriptorOf sm k) ∧
      (∀ k, k ≠ s → (SetOnEntry sm s none).states.lookup k = sm.states.lookup k ∧
        (SetOnExit sm s none).states.lookup k = sm.states.lookup k) ∧
      (∀ a, (descriptorOf (SetOnEntry (SetOnEntry sm s (some a)) s none) s).onEntry = a ∧
        (descriptorOf (SetOnExit (SetOnExit sm s (some a)) s none) s).onExit = a) := by
  refine ⟨fun hs => ?_, fun hs => ?_, fun k => ?_, fun k hk => ?_, fun a => ?_⟩
  · rw [SetOnEntry_none, SetOnExit_none, getOrCreateState_idem sm s hs]
    exact ⟨rfl, rfl⟩
  · have hl : sm.states.lookup s = none := AList.lookup_eq_none.mpr hs
    refine ⟨?_, ?_, rfl, rfl⟩
    · rw [SetOnEntry_none]
      unfold getOrCreateState
      simp only [hl]
    · rw [SetOnExit_none]
      unfold getOrCreateState
      simp only [hl]
  · rw [SetOnEntry_none, SetOnExit_none, descriptorOf_getOrCreateState]
    exact ⟨rfl, rfl⟩
  · rw [SetOnEntry_none, SetOnExit_none, getOrCreateState_lookup_ne sm s k hk]
    exact ⟨rfl, rfl⟩
  · rw [descriptorOf_SetOnEntry, descriptorOf_SetOnEntry, descriptorOf_SetOnExit,
      descriptorOf_SetOnExit]
    simp

theorem C14_nil_action_keeps_hooks_witness :
    SetOnEntry testMachine "idle" none = testMachine ∧
      SetOnExit testMachine "idle" none = testMachine ∧
      (SetOnEntry testMachine "foo" none).states.lookup "foo" =
        some (newStateDescriptor "foo") :=
  ⟨((C14_nil_action_keeps_hooks testMachine "idle").1 (by decide)).1,
    ((C14_nil_action_keeps_hooks testMachine "idle").1 (by decide)).2,
    by
      rw [((C14_nil_action_keeps_hooks testMachine "foo").2.1 (by decide)).1]
      exact AList.lookup_insert _⟩

theorem Data_fst (sm : StateMachine) (s : State) :
    (sm.Data s).1 = (descriptorOf sm s).data := by
  show (getOrCreateState sm s).1.data = _
  rw [getOrCreateState_fst]

theorem lookup_data_step (sm : StateMachine) (op : Op) (s : State) (k : String)
    (h : op.stores s k = false) :
    (descriptorOf (step sm op) s).data.lookup k = (descriptorOf sm s).data.lookup k := by
  cases op with
  | AddTransition source input target =>
    rw [step, descriptorOf_AddTransition]
    split
    · rename_i hs
      rw [hs]
    · rfl
  | SetOnEntry state action =>
    rw [step, descriptorOf_SetOnEntry]
    split
    · rename_i hs
      rw [hs]
    · rfl
  | SetOnExit state action =>
    rw [step, descriptorOf_SetOnExit]
    split
    · rename_i hs
      rw [hs]
    · rfl
  | Data state => rw [step, Data_snd, descriptorOf_getOrCreateState]
  | DataStore state key v =>
    rw [step, descriptorOf_DataStore]
    split
    · rename_i hs
      subst hs
      have hk : k ≠ key := by
        intro hk
        subst hk
        simp [Op.stores] at h
      exact AList.lookup_insert_ne hk
    · rfl
  | SetState state => rw [step, descriptorOf_congr _ sm (SetState_states sm state)]
  | Process event => rw [step, descriptorOf_congr _ sm (Process_states sm event)]
  | State => rfl
  | States => rfl
  | OutStates source => rfl
  | ValidEvents state => rfl
  | IsValidEvent state event => rfl

theorem lookup_data_run (ops : List Op) (sm : StateMachine) (s : State) (k : String)
    (h : ∀ op ∈ ops, op.stores s k = false) :
    (descriptorOf (run sm ops) s).data.lookup k = (descriptorOf sm s).data.lookup k := by
  induction ops generalizing sm with
  | nil => rfl
  | cons op ops ih =>
    show (descriptorOf (run (step sm op) ops) s).data.lookup k = _
    rw [ih (step sm op) (fun o ho => h o (List.mem_cons_of_mem _ ho))]
    exact lookup_data_step sm op s k (h op (List.mem_cons_self _ _))

/-- C15: every typed accessor of a data bag returns the stored value when the
key is present with a value of the type of the accessor, and the zero value of
that type otherwise (`""`, the nil slice, `0`, the nil slice, `false`).  The
accessors are total functions of the bag and the key and return only the
value. -/
theorem C15_typed_accessors (d : Data) (k : String) :
    ((∀ v, d.lookup k = some (Value.string v) → Data.String d k = v) ∧
        ((∀ v, d.lookup k ≠ some (Value.string v)) → Data.String d k = "")) ∧
      ((∀ v, d.lookup k = some (Value.strings v) → Data.Strings d k = v) ∧
        ((∀ v, d.lookup k ≠ some (Value.strings v)) → Data.Strings d k = none)) ∧
      ((∀ v, d.lookup k = some (Value.int v) → Data.Int d k = v) ∧
        ((∀ v, d.lookup k ≠ some (Value.int v)) → Data.Int d k = 0)) ∧
      ((∀ v, d.lookup k = some (Value.ints v) → Data.Ints d k = v) ∧
        ((∀ v, d.lookup k ≠ some (Value.ints v)) → Data.Ints d k = none)) ∧
      ((∀ v, d.lookup k = some (Value.bool v) → Data.Bool d k = v) ∧
        ((∀ v, d.lookup k ≠ some (Value.bool v)) → Data.Bool d k = false)) := by
  unfold Data.String Data.Strings Data.Int Data.Ints Data.Bool
  cases hl : d.lookup k with
  | none => simp
  | some x => cases x <;> simp

theorem C15_typed_accessors_witness :
    Data.String (dataMachine.Data "a").1 "foo" = "bar" ∧
      Data.Int (dataMachine.Data "a").1 "foo" = 0 ∧
      Data.Bool (dataMachine.Data "a").1 "missing" = false :=
  ⟨(C15_typed_accessors (dataMachine.Data "a").1 "foo").1.1 "bar" (by rfl),
    (C15_typed_accessors (dataMachine.Data "a").1 "foo").2.2.1.2
      (fun v h => by cases (show some (Value.string "bar") = some (Value.int v) from h)),
    (C15_typed_accessors (dataMachine.Data "a").1 "missing").2.2.2.2.2
      (fun v h => by cases (show (none : Option Value) = some (Value.bool v) from h))⟩

/-- C16: after the store `Data(s)[k] = v` of a string `v`, `Data(s).String(k)`
returns `v`, also after further calls that do not store under `k` in the bag of
`s` again; a second `Data(s)` returns the bag of the first and changes nothing,
also when the first created the descriptor; and on a machine built from
`New()` by calls that never store under `k2` in the bag of `s`,
`Data(s).String(k2)` returns `""`.  The bag that `Data(s)` hands out is the bag
of the descriptor registered for `s` after the call: the call changes nothing
when `s` has a descriptor, and otherwise registers a fresh descriptor and hands
out its empty bag.  The bag of a later `Data(s)` is the bag handed out first
with the store in it. -/
theorem C16_data_round_trip (sm : StateMachine) (s : State) (k v k2 : String)
    (later built : List Op) :
    ((∀ op ∈ later, op.stores s k = false) →
        Data.String ((run (DataStore sm s k (Value.string v)) later).Data s).1 k = v) ∧
      ((sm.Data s).2.Data s = ((sm.Data s).1, (sm.Data s).2)) ∧
      ((∀ op ∈ built, op.stores s k2 = false) →
        Data.String ((run New built).Data s).1 k2 = "") ∧
      (∃ d, (sm.Data s).2.states.lookup s = some d ∧ (sm.Data s).1 = d.data) ∧
      (s ∈ sm.states → (sm.Data s).2 = sm) ∧
      (s ∉ sm.states →
        (sm.Data s).1 = ∅ ∧
        (sm.Data s).2 =
          { state := sm.state, states := sm.states.insert s (newStateDescriptor s),
            trace := sm.trace }) ∧
      ((DataStore sm s k (Value.string v)).Data s).1 =
        (sm.Data s).1.insert k (Value.string v) := by
  refine ⟨fun h => ?_, ?_, fun h => ?_, ?_, fun hs => ?_, fun hs => ?_, ?_⟩
  · have hl := lookup_data_run later (DataStore sm s k (Value.string v)) s k h
    rw [descriptorOf_DataStore, if_pos rfl] at hl
    simp only [AList.lookup_insert] at hl
    rw [Data_fst]
    unfold Data.String
    rw [hl]
  · have hmem : s ∈ (getOrCreateState sm s).2.states :=
      (mem_getOrCreateState sm s s).mpr (Or.inl rfl)
    show (let (d, sm1) := getOrCreateState (getOrCreateState sm s).2 s; (d.data, sm1)) = _
    rw [getOrCreateState_idem _ s hmem, descriptorOf_getOrCreateState, Data_fst, Data_snd]
  · have hl := lookup_data_run built New s k2 h
    rw [Data_fst]
    unfold Data.String
    rw [hl]
    simp [descriptorOf, New, newStateDescriptor]
  · exact ⟨descriptorOf sm s, by rw [Data_snd]; exact getOrCreateState_lookup_self sm s,
      Data_fst sm s⟩
  · rw [Data_snd, getOrCreateState_idem sm s hs]
  · have hl : sm.states.lookup s = none := AList.lookup_eq_none.mpr hs
    constructor
    · rw [Data_fst]
      unfold descriptorOf
      rw [hl]
      rfl
    · rw [Data_snd]
      unfold getOrCreateState
      simp only [hl]
  · rw [Data_fst, Data_fst, descriptorOf_DataStore, if_pos rfl]

theorem C16_data_round_trip_witness :
    Data.String
        ((run (DataStore New "a" "foo" (Value.string "bar"))
          [Op.Data "a", Op.DataStore "a" "other" (Value.int 1)]).Data "a").1 "foo" = "bar" ∧
      Data.String ((run New [Op.DataStore "a" "foo" (Value.string "bar")]).Data "a").1
        "missing" = "" ∧
      ((New.Data "a").1 = ∅ ∧
        (New.Data "a").2 =
          { state := New.state, states := New.states.insert "a" (newStateDescriptor "a"),
            trace := New.trace }) ∧
      (dataMachine.Data "a").2 = dataMachine :=
  ⟨(C16_data_round_trip New "a" "foo" "bar" "missing"
      [Op.Data "a", Op.DataStore "a" "other" (Value.int 1)]
      [Op.DataStore "a" "foo" (Value.string "bar")]).1 (by decide),
    (C16_data_round_trip New "a" "foo" "bar" "missing"
      [Op.Data "a", Op.DataStore "a" "other" (Value.int 1)]
      [Op.DataStore "a" "foo" (Value.string "bar")]).2.2.1 (by decide),
    (C16_data_round_trip New "a" "foo" "bar" "missing" [] []).2.2.2.2.2.1 (by decide),
    (C16_data_round_trip dataMachine "a" "foo" "bar" "missing" [] []).2.2.2.2.1 (by decide)⟩

theorem lookup_of_mem {ν : Type} (m : GoMap State ν) (k : State) (h : k ∈ m) :
    ∃ v, m.lookup k = some v :=
  Option.isSome_iff_exists.mp (AList.lookup_isSome.mpr h)

theorem SetState_of_mem (sm : StateMachine) (s : State) (hcons : Consistent sm)
    (hs : s ∈ sm.states) :
    (SetState sm s).1 = Result.ok ∧ (SetState sm s).2.state = s ∧
      (SetState sm s).2.states = sm.states := by
  obtain ⟨ns, hns⟩ := lookup_of_mem _ s hs
  by_cases heq : sm.state = s
  · unfold SetState
    rw [if_pos heq]
    exact ⟨rfl, heq, rfl⟩
  · by_cases hc : sm.state = ""
    · rw [SetState_of_unset sm s ns heq hc hns]
      exact ⟨rfl, rfl, rfl⟩
    · obtain ⟨cs, hcs⟩ := lookup_of_mem _ _ (hcons.1 hc)
      rw [SetState_of_set sm s cs ns heq hc hcs hns]
      exact ⟨rfl, rfl, rfl⟩

theorem mem_run_of_mem (ops : List Op) (sm : StateMachine) (k : State) (h : k ∈ sm.states) :
    k ∈ (run sm ops).states :=
  (mem_run ops sm k).mpr (Or.inl h)

/-- C17: on every machine built from `New()` by a sequence of calls, a current
state that is set has a descriptor in the registry. -/
theorem C17_current_state_registered (sm : StateMachine) (hr : Reachable sm)
    (hc : sm.State ≠ "") :
    sm.State ∈ sm.states ∧ ∃ d, sm.states.lookup sm.State = some d :=
  ⟨(consistent_of_reachable sm hr).1 hc,
    lookup_of_mem _ _ ((consistent_of_reachable sm hr).1 hc)⟩

theorem C17_current_state_registered_witness :
    idleMachine.State ∈ idleMachine.states ∧
      ∃ d, idleMachine.states.lookup idleMachine.State = some d :=
  C17_current_state_registered idleMachine ⟨_, rfl⟩ (by decide)

/-- C18: on every machine built from `New()` by a sequence of calls, the source
and the target of every `AddTransition` call of the sequence have a descriptor,
and so has the target of every entry of every transition map; `SetState` on any
of these states returns no error. -/
theorem C18_transition_states_registered (ops : List Op) :
    (∀ source input target, Op.AddTransition source input target ∈ ops →
        source ∈ (run New ops).states ∧ target ∈ (run New ops).states ∧
          (SetState (run New ops) source).1 = Result.ok ∧
          (SetState (run New ops) target).1 = Result.ok) ∧
      ∀ source event target, HasTransition (run New ops) source event target →
        target ∈ (run New ops).states ∧ (SetState (run New ops) target).1 = Result.ok := by
  have hcons : Consistent (run New ops) := consistent_run ops New consistent_New
  constructor
  · intro source input target hop
    have hs : source ∈ (run New ops).states :=
      (mem_run ops New source).mpr
        (Or.inr ⟨_, hop, by simp [Op.introduces]⟩)
    have ht : target ∈ (run New ops).states :=
      (mem_run ops New target).mpr
        (Or.inr ⟨_, hop, by simp [Op.introduces]⟩)
    exact ⟨hs, ht, (SetState_of_mem _ source hcons hs).1, (SetState_of_mem _ target hcons ht).1⟩
  · intro source event target h
    have ht := hcons.2 source event target h
    exact ⟨ht, (SetState_of_mem _ target hcons ht).1⟩

theorem C18_transition_states_registered_witness :
    ("idle" ∈ (run New testOps).states ∧ "playing" ∈ (run New testOps).states ∧
        (SetState (run New testOps) "idle").1 = Result.ok ∧
        (SetState (run New testOps) "playing").1 = Result.ok) ∧
      ("playing" ∈ (run New testOps).states ∧
        (SetState (run New testOps) "playing").1 = Result.ok) :=
  ⟨(C18_transition_states_registered testOps).1 "idle" "PLAY" "playing" (by decide),
    (C18_transition_states_registered testOps).2 "idle" "PLAY" "playing"
      hasTransition_testMachine⟩

/-- C19: on every machine built from `New()` by a sequence of calls, `Process`
never returns the does-not-exist error (neither for the current state nor for
the target), `SetState` never dereferences a missing descriptor, and the
descriptor of a current state that is set is found. -/
theorem C19_defensive_branches_unreachable (sm : StateMachine) (hr : Reachable sm) :
    (∀ event x, (Process sm event).1 ≠ Result.error (Error.doesNotExist x)) ∧
      (∀ s, (SetState sm s).1 ≠ Result.panic) ∧
      (sm.State ≠ "" → ∃ cs, sm.states.lookup sm.State = some cs) := by
  have hcons := consistent_of_reachable sm hr
  refine ⟨fun event x => ?_, fun s => ?_, fun hc => lookup_of_mem _ _ (hcons.1 hc)⟩
  · by_cases hc : sm.state = ""
    · simp [Process, hc]
    · obtain ⟨d, hd⟩ := lookup_of_mem _ _ (hcons.1 hc)
      by_cases hl : d.transitions.entries.length = 0
      · simp [Process, hc, hd, hl]
      · cases he : d.transitions.lookup event with
        | none => simp [Process, hc, hd, hl, he]
        | some target =>
          obtain ⟨t, ht⟩ := lookup_of_mem _ _ (hcons.2 sm.state event target ⟨d, hd, he⟩)
          rw [Process_of_transition sm event d t target hc hd he ht]
          simp
  · by_cases hs : s ∈ sm.states
    · rw [(SetState_of_mem sm s hcons hs).1]
      simp
    · by_cases heq : sm.state = s
      · unfold SetState
        rw [if_pos heq]
        simp
      · rw [SetState_unknown sm s heq hs]
        simp

theorem C19_defensive_branches_unreachable_witness :
    (∀ event x, (Process idleMachine event).1 ≠ Result.error (Error.doesNotExist x)) ∧
      (∀ s, (SetState idleMachine s).1 ≠ Result.panic) ∧
      (idleMachine.State ≠ "" → ∃ cs, idleMachine.states.lookup idleMachine.State = some cs) :=
  C19_defensive_branches_unreachable idleMachine ⟨_, rfl⟩

theorem mem_OutStates (sm : StateMachine) (s t : State) :
    t ∈ OutStates sm s ↔ ∃ e, HasTransition sm s e t := by
  unfold OutStates HasTransition
  cases hs : sm.states.lookup s with
  | none => simp
  | some d =>
    simp only []
    rw [mem_sortSlice, ← AList.mem_keys, mem_markTargets]
    simp [AList.not_mem_empty]

/-- C20: on a machine built from `New()`, for a non-empty state `s` that has a
descriptor, `SetState(s)` returns no error, and `t` is in `OutStates(s)` exactly
when for some event `e` the call `Process(e)` after `SetState(s)` returns no
error and leaves `State()` equal to `t`; every member of `OutStates(s)` is in
`States()`. -/
theorem C20_OutStates_agrees_with_Process (sm : StateMachine) (hr : Reachable sm) (s : State)
    (hs : s ∈ sm.states) (hne : s ≠ "") :
    (SetState sm s).1 = Result.ok ∧
      (∀ t, t ∈ OutStates sm s ↔
        ∃ e, (Process (SetState sm s).2 e).1 = Result.ok ∧
          (Process (SetState sm s).2 e).2.State = t) ∧
      ∀ t, t ∈ OutStates sm s → t ∈ States sm := by
  have hcons := consistent_of_reachable sm hr
  obtain ⟨hok, hst, hreg⟩ := SetState_of_mem sm s hcons hs
  have hc1 : (SetState sm s).2.state ≠ "" := by
    rw [hst]
    exact hne
  refine ⟨hok, fun t => ?_, fun t ht => ?_⟩
  · rw [mem_OutStates]
    constructor
    · rintro ⟨e, d, hd, he⟩
      obtain ⟨dt, hdt⟩ := lookup_of_mem _ _ (hcons.2 s e t ⟨d, hd, he⟩)
      refine ⟨e, ?_⟩
      have hd1 : (SetState sm s).2.states.lookup (SetState sm s).2.state = some d := by
        rw [hst, hreg]
        exact hd
      have hdt1 : (SetState sm s).2.states.lookup t = some dt := by
        rw [hreg]
        exact hdt
      rw [Process_of_transition (SetState sm s).2 e d dt t hc1 hd1 he hdt1]
      exact ⟨rfl, rfl⟩
    · rintro ⟨e, hpok, hpst⟩
      obtain ⟨d, target, dt, _, hd, he, hdt⟩ := Process_ok_inv (SetState sm s).2 e hpok
      rw [Process_of_transition (SetState sm s).2 e d dt target hc1 hd he hdt] at hpst
      have htarget : target = t := hpst
      rw [hst, hreg] at hd
      exact ⟨e, d, hd, htarget ▸ he⟩
  · obtain ⟨e, h⟩ := (mem_OutStates sm s t).mp ht
    exact (mem_States sm t).mpr (Or.inr ⟨s, e, h⟩)

theorem C20_OutStates_agrees_with_Process_witness :
    (SetState testMachine "idle").1 = Result.ok ∧
      (∀ t, t ∈ OutStates testMachine "idle" ↔
        ∃ e, (Process (SetState testMachine "idle").2 e).1 = Result.ok ∧
          (Process (SetState testMachine "idle").2 e).2.State = t) ∧
      ∀ t, t ∈ OutStates testMachine "idle" → t ∈ States testMachine :=
  C20_OutStates_agrees_with_Process testMachine ⟨_, rfl⟩ "idle" (by decide) (by decide)

end Fsm
